import Mathlib

/-!
# PK-Finance frontend response cache — shallow embedding

This file embeds the client-side response cache / request-deduplication
layer of `src/frontend-service/static/sw.js` (the API-client module with
`cache`, `inflight`, `request`, `revalidate`, `invalidate`,
`clearAllCache`) and the service-worker `activate` handlers of
`src/frontend-service/static/sw.js` and `src/frontend-service/public/sw.js`.

JavaScript `Map` objects are modelled as association lists; `Date.now()`
is an explicit `now : Nat` parameter; a network call is a pending entry
whose outcome (`success` / non-2xx / JSON-decode failure / transport
failure) is supplied at settlement time.  The module runs on a
single-threaded event loop whose only suspension points are network
fetches, so each synchronous block of the source is one atomic step of
the model: `requestStart` is the synchronous body of `request` (up to and
including the construction of the promise and its registration), and
`settleStep` is the `.then`/`.catch` continuation chain that runs when
the underlying fetch settles.
-/

namespace PKFinance

/-! ## Association-list maps (model of JavaScript `Map`) -/

/-- `Map.get`: first binding of `k`, if any. -/
def mlookup {κ β : Type} [DecidableEq κ] : List (κ × β) → κ → Option β
  | [], _ => none
  | (k', v) :: t, k => if k' = k then some v else mlookup t k

/-- `Map.set`: overwrite the binding of `k` with `v`. -/
def mset {κ β : Type} [DecidableEq κ] (l : List (κ × β)) (k : κ) (v : β) :
    List (κ × β) :=
  (k, v) :: l.filter (fun kv => kv.1 ≠ k)

/-- `Map.delete`: remove the binding of `k`. -/
def mdel {κ β : Type} [DecidableEq κ] (l : List (κ × β)) (k : κ) :
    List (κ × β) :=
  l.filter (fun kv => kv.1 ≠ k)

@[simp] theorem mlookup_nil {κ β : Type} [DecidableEq κ] (k : κ) :
    mlookup ([] : List (κ × β)) k = none := rfl

@[simp] theorem mlookup_cons {κ β : Type} [DecidableEq κ] (k' k : κ) (v : β)
    (t : List (κ × β)) :
    mlookup ((k', v) :: t) k = if k' = k then some v else mlookup t k := rfl

theorem mlookup_filter {κ β : Type} [DecidableEq κ] (q : κ → Bool)
    (l : List (κ × β)) (k : κ) :
    mlookup (l.filter (fun kv => q kv.1)) k =
      if q k then mlookup l k else none := by
  induction l with
  | nil => simp
  | cons hd t ih =>
    rcases hd with ⟨k', v⟩
    by_cases hk : k' = k
    · subst hk
      by_cases hq : q k' <;> simp [List.filter, hq, ih]
    · by_cases hq : q k' <;> simp [List.filter, hq, hk, ih]

@[simp] theorem mlookup_mset_self {κ β : Type} [DecidableEq κ]
    (l : List (κ × β)) (k : κ) (v : β) :
    mlookup (mset l k v) k = some v := by
  simp [mset]

theorem mlookup_mset_ne {κ β : Type} [DecidableEq κ]
    (l : List (κ × β)) (k k' : κ) (v : β) (h : k ≠ k') :
    mlookup (mset l k v) k' = mlookup l k' := by
  have := mlookup_filter (fun x => decide (x ≠ k)) l k'
  simp [mset, h, Ne.symm h] at this ⊢
  simpa [h] using this

@[simp] theorem mlookup_mdel_self {κ β : Type} [DecidableEq κ]
    (l : List (κ × β)) (k : κ) :
    mlookup (mdel l k) k = none := by
  have := mlookup_filter (fun x => decide (x ≠ k)) l k
  simpa [mdel] using this

theorem mlookup_mdel_ne {κ β : Type} [DecidableEq κ]
    (l : List (κ × β)) (k k' : κ) (h : k ≠ k') :
    mlookup (mdel l k) k' = mlookup l k' := by
  have := mlookup_filter (fun x => decide (x ≠ k)) l k'
  simpa [mdel, Ne.symm h] using this

/-- `pat` is a prefix of `l`. -/
def listStartsWith {α : Type} [DecidableEq α] : List α → List α → Bool
  | [], _ => true
  | _ :: _, [] => false
  | a :: as, b :: bs => a = b && listStartsWith as bs

/-- `pat` occurs in `l` as a contiguous sublist. -/
def listContains {α : Type} [DecidableEq α] (pat : List α) : List α → Bool
  | [] => listStartsWith pat []
  | l@(_ :: t) => listStartsWith pat l || listContains pat t

/-- JavaScript `String.prototype.includes`: `pat` occurs in `s` as a
contiguous substring. -/
def strIncludes (s pat : String) : Bool :=
  listContains pat.data s.data

/-! ## Data model of the cache module -/

/-- `CACHE_TTL = 2 * 60 * 1000` — the fresh window, in ms. -/
def CACHE_TTL : Nat := 2 * 60 * 1000

/-- `STALE_TTL = 10 * 60 * 1000` — the stale-while-revalidate window, in ms. -/
def STALE_TTL : Nat := 10 * 60 * 1000

/-- A cache entry `{ data, time }` as stored by `cache.set(key, { data, time: Date.now() })`.
JSON payloads are modelled abstractly as `Nat` identifiers. -/
structure CacheEntry where
  data : Nat
  time : Nat
deriving DecidableEq, Repr

/-- What kind of network call a pending promise represents: the promise
built inside `request` (foreground, with its `isGet` flag, the fetched
path and the cache key), or the promise built inside `revalidate`
(background). -/
inductive PendingKind where
  | foreground (isGet : Bool) (path : String) (key : String)
  | background (path : String) (key : String)
deriving DecidableEq, Repr

/-- The module-level mutable state: the `cache` map, the `inflight` map
(key ↦ promise id), the set of unsettled network calls (promise id ↦
kind), and a fresh-id counter for promises. -/
structure SWState where
  cache : List (String × CacheEntry)
  inflight : List (String × Nat)
  pending : List (Nat × PendingKind)
  nextId : Nat
deriving DecidableEq, Repr

/-- Both maps start empty (`new Map()`). -/
def initState : SWState :=
  { cache := [], inflight := [], pending := [], nextId := 0 }

/-- `opts?.method || 'GET'` — the effective method used in the cache key
(the empty string is falsy in JavaScript). -/
def effMethod : Option String → String
  | none => "GET"
  | some m => if m = "" then "GET" else m

/-- `getCacheKey(path, opts)` = `` `${opts?.method || 'GET'}:${path}` ``. -/
def getCacheKey (path : String) (m : Option String) : String :=
  effMethod m ++ ":" ++ path

/-- `!opts.method || opts.method === 'GET'`. -/
def isGetMethod : Option String → Bool
  | none => true
  | some s => s = "" || s = "GET"

/-- What the synchronous part of `request` returns to its caller. -/
inductive ReqResult where
  | fresh (data : Nat)
  | staleServed (data : Nat)
  | attached (pid : Nat)
  | newCall (pid : Nat)
deriving DecidableEq, Repr

/-- Lines 126–147 of the module: build the promise (the fetch starts) and,
for GET requests, register it in `inflight`; both happen in the same
synchronous block, so they form one atomic step. -/
def issueCall (s : SWState) (path key : String) (isGet : Bool) :
    SWState × ReqResult :=
  let pid := s.nextId
  ({ cache := s.cache
     inflight := if isGet then mset s.inflight key pid else s.inflight
     pending := (pid, PendingKind.foreground isGet path key) :: s.pending
     nextId := pid + 1 },
   ReqResult.newCall pid)

/-- The synchronous body of `revalidate(path, key)`: no-op if an in-flight
entry exists for `key`; otherwise start the fetch and register its
promise in `inflight`. -/
def revalidateStart (s : SWState) (path key : String) : SWState :=
  match mlookup s.inflight key with
  | some _ => s
  | none =>
    { cache := s.cache
      inflight := mset s.inflight key s.nextId
      pending := (s.nextId, PendingKind.background path key) :: s.pending
      nextId := s.nextId + 1 }

/-- The synchronous body of `request(path, opts)` at wall-clock `now`:
cache check (fresh / stale / expired), in-flight deduplication, then
`issueCall`. -/
def requestStart (s : SWState) (path : String) (m : Option String)
    (now : Nat) : SWState × ReqResult :=
  let key := getCacheKey path m
  let isGet := isGetMethod m
  if isGet then
    match mlookup s.cache key with
    | some c =>
      if now - c.time < CACHE_TTL then
        (s, ReqResult.fresh c.data)
      else if now - c.time < STALE_TTL then
        (revalidateStart s path key, ReqResult.staleServed c.data)
      else
        match mlookup s.inflight key with
        | some pid => (s, ReqResult.attached pid)
        | none => issueCall s path key isGet
    | none =>
      match mlookup s.inflight key with
      | some pid => (s, ReqResult.attached pid)
      | none => issueCall s path key isGet
  else
    issueCall s path key isGet

/-- How the underlying `fetch` settles: 2xx with a decodable JSON body,
a non-2xx response (`!res.ok`), a 2xx response whose body fails to
decode (`res.json()` rejects), or a transport failure (`fetch` rejects). -/
inductive FetchOutcome where
  | success (data : Nat)
  | httpErr (status : Nat)
  | jsonErr
  | transportErr
deriving DecidableEq, Repr

/-- A JavaScript value delivered by a settled promise: a decoded JSON
payload, `undefined`, or a boolean (as returned by `Map.delete`). -/
inductive JSVal where
  | json (data : Nat)
  | undef
  | jsbool (b : Bool)
deriving DecidableEq, Repr

/-- JavaScript truthiness of a decoded JSON payload under the `Nat`
abstraction used throughout this file: the identifier `0` encodes the
falsy decode results (`null`, `false`, `0`, `""`), every other identifier
encodes a truthy value. -/
def payloadTruthy (d : Nat) : Bool := d != 0

/-- How a pending promise settles for everyone who holds it. -/
inductive SettleResult where
  | resolved (v : JSVal)
  | rejected
deriving DecidableEq, Repr

/-- The `.then`/`.catch` chain of the promise built in `request`
(lines 126–144): on success cache the payload (GET only), drop the
in-flight entry, resolve with the data; on any failure drop the in-flight
entry, then resolve with the stale cached payload if one exists, else
reject. -/
def settleForeground (s : SWState) (isGet : Bool) (key : String)
    (o : FetchOutcome) (now : Nat) : SWState × SettleResult :=
  match o with
  | FetchOutcome.success d =>
    ({ s with
       cache := if isGet then mset s.cache key ⟨d, now⟩ else s.cache
       inflight := mdel s.inflight key },
     SettleResult.resolved (JSVal.json d))
  | _ =>
    let s1 := { s with inflight := mdel s.inflight key }
    match mlookup s1.cache key with
    | some stale => (s1, SettleResult.resolved (JSVal.json stale.data))
    | none => (s1, SettleResult.rejected)

/-- The `.then`/`.catch` chain of the promise built in `revalidate`
(lines 152–158).  The second `.then` runs on any response: its
`if (data)` guard overwrites the cache entry only when the decoded
payload is truthy (a non-2xx response was mapped to `null` by
`res.ok ? res.json() : null`, and a falsy decoded body fails the guard
the same way); it then drops the in-flight entry, and its block body
returns nothing, so the promise resolves with `undefined`.  A decode or
transport failure skips that `.then` and lands in
`.catch(() => inflight.delete(key))`, whose concise arrow body returns
`Map.delete`'s boolean — so on that path the promise resolves with the
boolean saying whether the key was still registered. -/
def settleBackground (s : SWState) (key : String) (o : FetchOutcome)
    (now : Nat) : SWState × SettleResult :=
  match o with
  | FetchOutcome.success d =>
    ({ s with
       cache := if payloadTruthy d then mset s.cache key ⟨d, now⟩
         else s.cache
       inflight := mdel s.inflight key },
     SettleResult.resolved JSVal.undef)
  | FetchOutcome.httpErr _ =>
    ({ s with inflight := mdel s.inflight key },
     SettleResult.resolved JSVal.undef)
  | _ =>
    ({ s with inflight := mdel s.inflight key },
     SettleResult.resolved (JSVal.jsbool (mlookup s.inflight key).isSome))

/-- Settle the pending network call `pid` with outcome `o` at time `now`.
Every caller holding `pid` (its initiator and everyone who attached to it
through the `inflight` map) observes the one returned `SettleResult`.
`none` when no such call is pending. -/
def settleStep (s : SWState) (pid : Nat) (o : FetchOutcome) (now : Nat) :
    Option (SWState × SettleResult) :=
  match mlookup s.pending pid with
  | none => none
  | some (PendingKind.foreground isGet _ key) =>
    some (settleForeground { s with pending := mdel s.pending pid } isGet key o now)
  | some (PendingKind.background _ key) =>
    some (settleBackground { s with pending := mdel s.pending pid } key o now)

/-- `invalidate(prefix)` (lines 163–167): delete every cache entry whose
key contains `pre` as a substring. -/
def invalidate (s : SWState) (pre : String) : SWState :=
  { s with cache := s.cache.filter (fun kv => !(strIncludes kv.1 pre)) }

/-- `clearAllCache()` (lines 170–173): clear both maps.  Unsettled
network calls are not cancelled. -/
def clearAllCache (s : SWState) : SWState :=
  { s with cache := [], inflight := [] }

/-- `n` back-to-back synchronous `request(path)` GET calls (each one runs
its synchronous body before any network call settles), collecting what
each caller receives. -/
def requestN (s : SWState) (path : String) (now : Nat) :
    Nat → SWState × List ReqResult
  | 0 => (s, [])
  | n + 1 =>
    let r := requestStart s path none now
    let rest := requestN r.1 path now n
    (rest.1, r.2 :: rest.2)

/-! ## Service-worker `activate` handlers -/

/-- `CACHE_NAME` in `src/frontend-service/static/sw.js`. -/
def CACHE_NAME_static : String := "pk-finance-v8"

/-- `CACHE_NAME` in `src/frontend-service/public/sw.js`. -/
def CACHE_NAME_public : String := "fintraxa-v1"

/-- Observable effects of an `activate` handler, in the order they occur
on the event loop. -/
inductive ActEvent where
  | cacheDeleted (name : String)
  | claimClients
deriving DecidableEq, Repr

/-- The `activate` handler of `src/frontend-service/static/sw.js`
(lines 22–29), run against the existing cache namespaces `keys`.
`event.waitUntil(caches.keys().then(...))` only schedules the deletions:
the `.then` continuation runs on a later microtask, while
`self.clients.claim()` is invoked synchronously inside the handler body —
so the claim precedes every deletion. -/
def activateStatic (keys : List String) : List ActEvent :=
  ActEvent.claimClients ::
    (keys.filter (fun k => k ≠ CACHE_NAME_static)).map ActEvent.cacheDeleted

/-- The `activate` handler of `src/frontend-service/public/sw.js`
(lines 11–17): `caches.keys().then(keys => Promise.all(...deletes)).then(() => self.clients.claim())` —
every deletion settles before the claim is invoked. -/
def activatePublic (keys : List String) : List ActEvent :=
  (keys.filter (fun k => k ≠ CACHE_NAME_public)).map ActEvent.cacheDeleted
    ++ [ActEvent.claimClients]

/-- `name` is deleted by the trace `tr`. -/
def deletesName (tr : List ActEvent) (name : String) : Prop :=
  ActEvent.cacheDeleted name ∈ tr

instance (tr : List ActEvent) (name : String) :
    Decidable (deletesName tr name) := by
  unfold deletesName
  infer_instance

/-- The event is a cache deletion. -/
def isDeletion : ActEvent → Bool
  | ActEvent.cacheDeleted _ => true
  | ActEvent.claimClients => false

/-- Every deletion in `tr` is listed before the claim of clients. -/
def deletionsBeforeClaim (tr : List ActEvent) : Prop :=
  ∀ i j : Fin tr.length, tr.get i = ActEvent.claimClients →
    isDeletion (tr.get j) = true → (j : Nat) < (i : Nat)

instance (tr : List ActEvent) : Decidable (deletionsBeforeClaim tr) := by
  unfold deletionsBeforeClaim
  infer_instance

/-! ## Invariants and step relations -/

/-- Whether a pending call participates in the `inflight` registry: GET
foreground calls and background revalidations do, other foreground calls
do not. -/
def isGetLike : PendingKind → Bool
  | PendingKind.foreground isGet _ _ => isGet
  | PendingKind.background _ _ => true

/-- The cache key a pending call settles against. -/
def pendKey : PendingKind → String
  | PendingKind.foreground _ _ k => k
  | PendingKind.background _ k => k

/-- Key-shape invariant: registry-participating pending calls and cache
entries are keyed `GET:<path>`, other pending calls are keyed
`POST:<path>` (the `api` object only issues default-method and
`{ method: 'POST' }` requests). -/
def KeyInv (s : SWState) : Prop :=
  (∀ pid pk, mlookup s.pending pid = some pk → isGetLike pk = true →
    ∃ p, pendKey pk = getCacheKey p none) ∧
  (∀ pid pk, mlookup s.pending pid = some pk → isGetLike pk = false →
    ∃ p, pendKey pk = getCacheKey p (some "POST")) ∧
  (∀ k e, mlookup s.cache k = some e → ∃ p, k = getCacheKey p none)

/-- Single-flight invariant: every registry-participating pending network
call is registered in `inflight` under its key (so no caller can observe
a "gap" where a call is underway for a key that is not in-flight), and
pending promise ids are below the fresh-id counter. -/
def FlightInv (s : SWState) : Prop :=
  (∀ pid pk, mlookup s.pending pid = some pk → isGetLike pk = true →
    mlookup s.inflight (pendKey pk) = some pid) ∧
  (∀ pid pk, mlookup s.pending pid = some pk → pid < s.nextId)

/-- One atomic event-loop step of the module as driven by the `api`
object: the synchronous body of a GET `request(path)`, of a POST
`request(path, { method: 'POST' })`, the settlement continuation of a
pending network call, `invalidate(prefix)`, or `clearAllCache()`. -/
inductive Op where
  | getReq (path : String) (now : Nat)
  | postReq (path : String) (now : Nat)
  | settles (pid : Nat) (o : FetchOutcome) (now : Nat)
  | inval (pre : String)
  | clear
deriving DecidableEq, Repr

/-- Apply one operation to the module state (settling a call that is not
pending is a no-op). -/
def applyOp (s : SWState) : Op → SWState
  | Op.getReq path now => (requestStart s path none now).1
  | Op.postReq path now => (requestStart s path (some "POST") now).1
  | Op.settles pid o now =>
    match settleStep s pid o now with
    | some sr => sr.1
    | none => s
  | Op.inval pre => invalidate s pre
  | Op.clear => clearAllCache s

/-- Run a sequence of operations. -/
def runOps (s : SWState) : List Op → SWState
  | [] => s
  | op :: rest => runOps (applyOp s op) rest

/-- States reachable from the initial (empty-maps) module state. -/
def Reachable (s : SWState) : Prop :=
  ∃ ops : List Op, runOps initState ops = s

/-! ## Characterization of `requestStart` -/

theorem requestStart_fresh (s : SWState) (path : String) (now : Nat)
    (c : CacheEntry) (hc : mlookup s.cache (getCacheKey path none) = some c)
    (hfresh : now - c.time < CACHE_TTL) :
    requestStart s path none now = (s, ReqResult.fresh c.data) := by
  simp [requestStart, isGetMethod, hc, hfresh]

theorem requestStart_stale (s : SWState) (path : String) (now : Nat)
    (c : CacheEntry) (hc : mlookup s.cache (getCacheKey path none) = some c)
    (h1 : CACHE_TTL ≤ now - c.time) (h2 : now - c.time < STALE_TTL) :
    requestStart s path none now =
      (revalidateStart s path (getCacheKey path none),
       ReqResult.staleServed c.data) := by
  simp [requestStart, isGetMethod, hc, Nat.not_lt.mpr h1, h2]

theorem requestStart_expired_attached (s : SWState) (path : String)
    (now : Nat) (c : CacheEntry) (pid : Nat)
    (hc : mlookup s.cache (getCacheKey path none) = some c)
    (h2 : STALE_TTL ≤ now - c.time)
    (hin : mlookup s.inflight (getCacheKey path none) = some pid) :
    requestStart s path none now = (s, ReqResult.attached pid) := by
  have h1 : CACHE_TTL ≤ now - c.time :=
    le_trans (by norm_num [CACHE_TTL, STALE_TTL]) h2
  simp [requestStart, isGetMethod, hc, Nat.not_lt.mpr h1, Nat.not_lt.mpr h2, hin]

theorem requestStart_expired_new (s : SWState) (path : String) (now : Nat)
    (c : CacheEntry) (hc : mlookup s.cache (getCacheKey path none) = some c)
    (h2 : STALE_TTL ≤ now - c.time)
    (hin : mlookup s.inflight (getCacheKey path none) = none) :
    requestStart s path none now =
      issueCall s path (getCacheKey path none) true := by
  have h1 : CACHE_TTL ≤ now - c.time :=
    le_trans (by norm_num [CACHE_TTL, STALE_TTL]) h2
  simp [requestStart, isGetMethod, hc, Nat.not_lt.mpr h1, Nat.not_lt.mpr h2, hin]

theorem requestStart_miss_attached (s : SWState) (path : String) (now : Nat)
    (pid : Nat) (hc : mlookup s.cache (getCacheKey path none) = none)
    (hin : mlookup s.inflight (getCacheKey path none) = some pid) :
    requestStart s path none now = (s, ReqResult.attached pid) := by
  simp [requestStart, isGetMethod, hc, hin]

theorem requestStart_miss_new (s : SWState) (path : String) (now : Nat)
    (hc : mlookup s.cache (getCacheKey path none) = none)
    (hin : mlookup s.inflight (getCacheKey path none) = none) :
    requestStart s path none now =
      issueCall s path (getCacheKey path none) true := by
  simp [requestStart, isGetMethod, hc, hin]

theorem requestStart_post (s : SWState) (path : String) (now : Nat) :
    requestStart s path (some "POST") now =
      issueCall s path (getCacheKey path (some "POST")) false := by
  simp [requestStart, isGetMethod]

/-- GET-shaped and POST-shaped keys never coincide. -/
theorem get_post_key_ne (p q : String) :
    getCacheKey p none ≠ getCacheKey q (some "POST") := by
  intro h
  have h2 := congrArg String.data h
  simp only [getCacheKey, effMethod] at h2
  cases p; cases q
  simp [String.data] at h2

theorem mlookup_mset_eq {κ β : Type} [DecidableEq κ]
    (l : List (κ × β)) (k : κ) (v : β) (k' : κ) :
    mlookup (mset l k v) k' = if k = k' then some v else mlookup l k' := by
  by_cases h : k = k'
  · subst h; simp
  · simp [h, mlookup_mset_ne l k k' v h]

theorem mlookup_mdel_eq {κ β : Type} [DecidableEq κ]
    (l : List (κ × β)) (k k' : κ) :
    mlookup (mdel l k) k' = if k = k' then none else mlookup l k' := by
  by_cases h : k = k'
  · subst h; simp
  · simp [h, mlookup_mdel_ne l k k' h]

/-! ## State characterization of settlement -/

theorem settleStep_foreground (s : SWState) (pid : Nat) (o : FetchOutcome)
    (now : Nat) (isGet : Bool) (path key : String)
    (hpk : mlookup s.pending pid = some (PendingKind.foreground isGet path key)) :
    settleStep s pid o now =
      some (settleForeground { s with pending := mdel s.pending pid }
        isGet key o now) := by
  simp [settleStep, hpk]

theorem settleStep_background (s : SWState) (pid : Nat) (o : FetchOutcome)
    (now : Nat) (path key : String)
    (hpk : mlookup s.pending pid = some (PendingKind.background path key)) :
    settleStep s pid o now =
      some (settleBackground { s with pending := mdel s.pending pid }
        key o now) := by
  simp [settleStep, hpk]

theorem settleForeground_success (s0 : SWState) (isGet : Bool)
    (key : String) (d now : Nat) :
    settleForeground s0 isGet key (FetchOutcome.success d) now =
      ({ s0 with
         cache := if isGet then mset s0.cache key ⟨d, now⟩ else s0.cache
         inflight := mdel s0.inflight key },
       SettleResult.resolved (JSVal.json d)) := rfl

theorem settleForeground_fail_fallback (s0 : SWState) (isGet : Bool)
    (key : String) (o : FetchOutcome) (now : Nat) (stale : CacheEntry)
    (ho : ∀ d, o ≠ FetchOutcome.success d)
    (hcl : mlookup s0.cache key = some stale) :
    settleForeground s0 isGet key o now =
      ({ s0 with inflight := mdel s0.inflight key },
       SettleResult.resolved (JSVal.json stale.data)) := by
  rcases o with d | st | _ | _
  · exact absurd rfl (ho d)
  all_goals simp [settleForeground, hcl]

theorem settleForeground_fail_reject (s0 : SWState) (isGet : Bool)
    (key : String) (o : FetchOutcome) (now : Nat)
    (ho : ∀ d, o ≠ FetchOutcome.success d)
    (hcl : mlookup s0.cache key = none) :
    settleForeground s0 isGet key o now =
      ({ s0 with inflight := mdel s0.inflight key },
       SettleResult.rejected) := by
  rcases o with d | st | _ | _
  · exact absurd rfl (ho d)
  all_goals simp [settleForeground, hcl]

theorem settleBackground_success (s0 : SWState) (key : String)
    (d now : Nat) :
    settleBackground s0 key (FetchOutcome.success d) now =
      ({ s0 with
         cache := if payloadTruthy d then mset s0.cache key ⟨d, now⟩
           else s0.cache
         inflight := mdel s0.inflight key },
       SettleResult.resolved JSVal.undef) := rfl

theorem settleBackground_httpErr (s0 : SWState) (key : String)
    (st now : Nat) :
    settleBackground s0 key (FetchOutcome.httpErr st) now =
      ({ s0 with inflight := mdel s0.inflight key },
       SettleResult.resolved JSVal.undef) := rfl

theorem settleBackground_caught (s0 : SWState) (key : String)
    (o : FetchOutcome) (now : Nat)
    (ho : o = FetchOutcome.jsonErr ∨ o = FetchOutcome.transportErr) :
    settleBackground s0 key o now =
      ({ s0 with inflight := mdel s0.inflight key },
       SettleResult.resolved
         (JSVal.jsbool (mlookup s0.inflight key).isSome)) := by
  rcases ho with h | h <;> subst h <;> rfl

theorem settleForeground_fail_state (s0 : SWState) (isGet : Bool)
    (key : String) (o : FetchOutcome) (now : Nat)
    (ho : ∀ d, o ≠ FetchOutcome.success d) :
    (settleForeground s0 isGet key o now).1 =
      { s0 with inflight := mdel s0.inflight key } := by
  rcases o with d | st | _ | _
  · exact absurd rfl (ho d)
  all_goals
    rcases hcl : mlookup s0.cache key with _ | stale <;>
      simp [settleForeground, hcl]

theorem settleBackground_fail_state (s0 : SWState) (key : String)
    (o : FetchOutcome) (now : Nat)
    (ho : ∀ d, o ≠ FetchOutcome.success d) :
    (settleBackground s0 key o now).1 =
      { s0 with inflight := mdel s0.inflight key } := by
  rcases o with d | st | _ | _
  · exact absurd rfl (ho d)
  all_goals simp [settleBackground]

/-- A settlement removes the settled call from `pending`, removes its key
from `inflight`, leaves the id counter alone, and either leaves the cache
alone or (on a success that caches) overwrites the settled key. -/
theorem settleStep_state (s : SWState) (pid : Nat) (o : FetchOutcome)
    (now : Nat) (s' : SWState) (r : SettleResult)
    (h : settleStep s pid o now = some (s', r)) :
    ∃ pk, mlookup s.pending pid = some pk ∧
      s'.pending = mdel s.pending pid ∧
      s'.inflight = mdel s.inflight (pendKey pk) ∧
      s'.nextId = s.nextId ∧
      (s'.cache = s.cache ∨
        (isGetLike pk = true ∧
          ∃ d, o = FetchOutcome.success d ∧
            s'.cache = mset s.cache (pendKey pk) ⟨d, now⟩)) := by
  rcases hpk : mlookup s.pending pid with _ | pk
  · simp [settleStep, hpk] at h
  refine ⟨pk, rfl, ?_⟩
  rcases pk with ⟨isGet, path, key⟩ | ⟨path, key⟩
  · rw [settleStep_foreground s pid o now isGet path key hpk] at h
    have h1 := congrArg Prod.fst (Option.some.inj h)
    rcases o with d | st | _ | _
    · rw [settleForeground_success] at h1
      cases isGet <;>
        (simp only [Prod.fst] at h1
         subst h1
         simp [pendKey, isGetLike])
    all_goals
      rw [settleForeground_fail_state _ _ _ _ _
        (fun d hd => FetchOutcome.noConfusion hd)] at h1
      simp only [Prod.fst] at h1
      subst h1
      simp [pendKey]
  · rw [settleStep_background s pid o now path key hpk] at h
    have h1 := congrArg Prod.fst (Option.some.inj h)
    rcases o with d | st | _ | _
    · rw [settleBackground_success] at h1
      simp only [Prod.fst] at h1
      subst h1
      rcases ht : payloadTruthy d <;> simp [pendKey, isGetLike, ht]
    all_goals
      rw [settleBackground_fail_state _ _ _ _
        (fun d hd => FetchOutcome.noConfusion hd)] at h1
      simp only [Prod.fst] at h1
      subst h1
      simp [pendKey]

/-! ## Invariant preservation -/

theorem invalidate_lookup (s : SWState) (pre k : String) :
    mlookup (invalidate s pre).cache k =
      if strIncludes k pre then none else mlookup s.cache k := by
  have h := mlookup_filter (fun x => !(strIncludes x pre)) s.cache k
  rcases hb : strIncludes k pre <;> simp [invalidate, hb] at h ⊢ <;> exact h

theorem keyInv_init : KeyInv initState := by
  refine ⟨?_, ?_, ?_⟩
  · intro pid pk hpk
    simp [initState] at hpk
  · intro pid pk hpk
    simp [initState] at hpk
  · intro k e hke
    simp [initState] at hke

theorem keyInv_issueCall_get (s : SWState) (path : String) (h : KeyInv s) :
    KeyInv (issueCall s path (getCacheKey path none) true).1 := by
  obtain ⟨h1, h2, h3⟩ := h
  refine ⟨?_, ?_, ?_⟩
  · intro pid pk hpk hlike
    simp only [issueCall, mlookup_cons] at hpk
    by_cases he : s.nextId = pid
    · rw [if_pos he] at hpk
      cases Option.some.inj hpk
      exact ⟨path, rfl⟩
    · rw [if_neg he] at hpk
      exact h1 pid pk hpk hlike
  · intro pid pk hpk hlike
    simp only [issueCall, mlookup_cons] at hpk
    by_cases he : s.nextId = pid
    · rw [if_pos he] at hpk
      cases Option.some.inj hpk
      simp [isGetLike] at hlike
    · rw [if_neg he] at hpk
      exact h2 pid pk hpk hlike
  · intro k e hke
    exact h3 k e (by simpa [issueCall] using hke)

theorem keyInv_issueCall_post (s : SWState) (path : String) (h : KeyInv s) :
    KeyInv (issueCall s path (getCacheKey path (some "POST")) false).1 := by
  obtain ⟨h1, h2, h3⟩ := h
  refine ⟨?_, ?_, ?_⟩
  · intro pid pk hpk hlike
    simp only [issueCall, mlookup_cons] at hpk
    by_cases he : s.nextId = pid
    · rw [if_pos he] at hpk
      cases Option.some.inj hpk
      simp [isGetLike] at hlike
    · rw [if_neg he] at hpk
      exact h1 pid pk hpk hlike
  · intro pid pk hpk hlike
    simp only [issueCall, mlookup_cons] at hpk
    by_cases he : s.nextId = pid
    · rw [if_pos he] at hpk
      cases Option.some.inj hpk
      exact ⟨path, rfl⟩
    · rw [if_neg he] at hpk
      exact h2 pid pk hpk hlike
  · intro k e hke
    exact h3 k e (by simpa [issueCall] using hke)

theorem keyInv_revalidateStart (s : SWState) (path : String) (h : KeyInv s) :
    KeyInv (revalidateStart s path (getCacheKey path none)) := by
  rcases hin : mlookup s.inflight (getCacheKey path none) with _ | pid0
  · obtain ⟨h1, h2, h3⟩ := h
    unfold revalidateStart
    rw [hin]
    refine ⟨?_, ?_, ?_⟩
    · intro pid pk hpk hlike
      simp only [mlookup_cons] at hpk
      by_cases he : s.nextId = pid
      · rw [if_pos he] at hpk
        cases Option.some.inj hpk
        exact ⟨path, rfl⟩
      · rw [if_neg he] at hpk
        exact h1 pid pk hpk hlike
    · intro pid pk hpk hlike
      simp only [mlookup_cons] at hpk
      by_cases he : s.nextId = pid
      · rw [if_pos he] at hpk
        cases Option.some.inj hpk
        simp [isGetLike] at hlike
      · rw [if_neg he] at hpk
        exact h2 pid pk hpk hlike
    · exact h3
  · unfold revalidateStart
    rw [hin]
    exact h

theorem keyInv_requestStart_get (s : SWState) (path : String) (now : Nat)
    (h : KeyInv s) : KeyInv (requestStart s path none now).1 := by
  rcases hc : mlookup s.cache (getCacheKey path none) with _ | c
  · rcases hin : mlookup s.inflight (getCacheKey path none) with _ | pid
    · rw [requestStart_miss_new s path now hc hin]
      exact keyInv_issueCall_get s path h
    · rw [requestStart_miss_attached s path now pid hc hin]
      exact h
  · by_cases hf : now - c.time < CACHE_TTL
    · rw [requestStart_fresh s path now c hc hf]
      exact h
    · by_cases hs2 : now - c.time < STALE_TTL
      · rw [requestStart_stale s path now c hc (Nat.not_lt.mp hf) hs2]
        exact keyInv_revalidateStart s path h
      · rcases hin : mlookup s.inflight (getCacheKey path none) with _ | pid
        · rw [requestStart_expired_new s path now c hc (Nat.not_lt.mp hs2) hin]
          exact keyInv_issueCall_get s path h
        · rw [requestStart_expired_attached s path now c pid hc
            (Nat.not_lt.mp hs2) hin]
          exact h

theorem keyInv_requestStart_post (s : SWState) (path : String) (now : Nat)
    (h : KeyInv s) : KeyInv (requestStart s path (some "POST") now).1 := by
  rw [requestStart_post]
  exact keyInv_issueCall_post s path h

theorem keyInv_settle (s : SWState) (pid : Nat) (o : FetchOutcome)
    (now : Nat) (s' : SWState) (r : SettleResult) (h : KeyInv s)
    (hstep : settleStep s pid o now = some (s', r)) : KeyInv s' := by
  obtain ⟨pk0, hpk0, hpend, hinf, -, hcache⟩ :=
    settleStep_state s pid o now s' r hstep
  obtain ⟨h1, h2, h3⟩ := h
  refine ⟨?_, ?_, ?_⟩
  · intro pid' pk' hp' hlike'
    rw [hpend, mlookup_mdel_eq] at hp'
    by_cases he : pid = pid'
    · rw [if_pos he] at hp'; cases hp'
    · rw [if_neg he] at hp'
      exact h1 pid' pk' hp' hlike'
  · intro pid' pk' hp' hlike'
    rw [hpend, mlookup_mdel_eq] at hp'
    by_cases he : pid = pid'
    · rw [if_pos he] at hp'; cases hp'
    · rw [if_neg he] at hp'
      exact h2 pid' pk' hp' hlike'
  · intro k e hke
    rcases hcache with hsame | ⟨hlike0, d, -, hset⟩
    · rw [hsame] at hke
      exact h3 k e hke
    · rw [hset, mlookup_mset_eq] at hke
      by_cases hk2 : pendKey pk0 = k
      · rw [← hk2]
        exact h1 pid pk0 hpk0 hlike0
      · rw [if_neg hk2] at hke
        exact h3 k e hke

theorem keyInv_invalidate (s : SWState) (pre : String) (h : KeyInv s) :
    KeyInv (invalidate s pre) := by
  obtain ⟨h1, h2, h3⟩ := h
  refine ⟨h1, h2, ?_⟩
  intro k e hke
  rw [invalidate_lookup] at hke
  by_cases hb : strIncludes k pre
  · rw [if_pos hb] at hke; cases hke
  · rw [if_neg hb] at hke
    exact h3 k e hke

theorem keyInv_clear (s : SWState) (h : KeyInv s) :
    KeyInv (clearAllCache s) := by
  obtain ⟨h1, h2, -⟩ := h
  refine ⟨h1, h2, ?_⟩
  intro k e hke
  simp [clearAllCache] at hke

/-- `KeyInv` is preserved by every operation of the module. -/
theorem keyInv_applyOp (s : SWState) (op : Op) (h : KeyInv s) :
    KeyInv (applyOp s op) := by
  cases op with
  | getReq path now => exact keyInv_requestStart_get s path now h
  | postReq path now => exact keyInv_requestStart_post s path now h
  | settles pid o now =>
    rcases hst : settleStep s pid o now with _ | ⟨s', r⟩
    · simpa [applyOp, hst] using h
    · have := keyInv_settle s pid o now s' r h hst
      simpa [applyOp, hst] using this
  | inval pre => exact keyInv_invalidate s pre h
  | clear => exact keyInv_clear s h

theorem keyInv_runOps (ops : List Op) (s : SWState) (h : KeyInv s) :
    KeyInv (runOps s ops) := by
  induction ops generalizing s with
  | nil => exact h
  | cons op rest ih => exact ih (applyOp s op) (keyInv_applyOp s op h)

/-- Every reachable module state satisfies the key-shape invariant. -/
theorem reachable_keyInv (s : SWState) (h : Reachable s) : KeyInv s := by
  obtain ⟨ops, hops⟩ := h
  rw [← hops]
  exact keyInv_runOps ops initState keyInv_init

theorem flightInv_init : FlightInv initState := by
  constructor <;> intro pid pk hpk <;> simp [initState] at hpk

theorem flightInv_register (s : SWState) (pk : PendingKind)
    (hnone : mlookup s.inflight (pendKey pk) = none) (h : FlightInv s) :
    FlightInv
      { cache := s.cache
        inflight := mset s.inflight (pendKey pk) s.nextId
        pending := (s.nextId, pk) :: s.pending
        nextId := s.nextId + 1 } := by
  obtain ⟨f1, f2⟩ := h
  constructor
  · intro pid' pk' hp' hlike'
    simp only [mlookup_cons] at hp'
    by_cases he : s.nextId = pid'
    · rw [if_pos he] at hp'
      cases Option.some.inj hp'
      simp only []
      rw [mlookup_mset_eq, if_pos rfl, he]
    · rw [if_neg he] at hp'
      have hreg := f1 pid' pk' hp' hlike'
      simp only []
      rw [mlookup_mset_eq]
      by_cases hkk : pendKey pk = pendKey pk'
      · rw [hkk] at hnone
        rw [hnone] at hreg
        cases hreg
      · rw [if_neg hkk]
        exact hreg
  · intro pid' pk' hp'
    simp only [mlookup_cons] at hp'
    simp only []
    by_cases he : s.nextId = pid'
    · omega
    · rw [if_neg he] at hp'
      exact Nat.lt_succ_of_lt (f2 pid' pk' hp')

theorem flightInv_issueCall_get (s : SWState) (path : String)
    (hnone : mlookup s.inflight (getCacheKey path none) = none)
    (h : FlightInv s) :
    FlightInv (issueCall s path (getCacheKey path none) true).1 := by
  have := flightInv_register s
    (PendingKind.foreground true path (getCacheKey path none)) hnone h
  simpa [issueCall, pendKey] using this

theorem flightInv_issueCall_post (s : SWState) (path : String)
    (h : FlightInv s) :
    FlightInv (issueCall s path (getCacheKey path (some "POST")) false).1 := by
  obtain ⟨f1, f2⟩ := h
  constructor
  · intro pid' pk' hp' hlike'
    simp only [issueCall, mlookup_cons] at hp'
    by_cases he : s.nextId = pid'
    · rw [if_pos he] at hp'
      cases Option.some.inj hp'
      simp [isGetLike] at hlike'
    · rw [if_neg he] at hp'
      simpa [issueCall] using f1 pid' pk' hp' hlike'
  · intro pid' pk' hp'
    simp only [issueCall, mlookup_cons] at hp'
    simp only [issueCall]
    by_cases he : s.nextId = pid'
    · omega
    · rw [if_neg he] at hp'
      exact Nat.lt_succ_of_lt (f2 pid' pk' hp')

theorem flightInv_revalidateStart (s : SWState) (path : String)
    (h : FlightInv s) :
    FlightInv (revalidateStart s path (getCacheKey path none)) := by
  rcases hin : mlookup s.inflight (getCacheKey path none) with _ | pid0
  · have := flightInv_register s
      (PendingKind.background path (getCacheKey path none)) hin h
    unfold revalidateStart
    rw [hin]
    exact this
  · unfold revalidateStart
    rw [hin]
    exact h

theorem flightInv_requestStart_get (s : SWState) (path : String) (now : Nat)
    (h : FlightInv s) : FlightInv (requestStart s path none now).1 := by
  rcases hc : mlookup s.cache (getCacheKey path none) with _ | c
  · rcases hin : mlookup s.inflight (getCacheKey path none) with _ | pid
    · rw [requestStart_miss_new s path now hc hin]
      exact flightInv_issueCall_get s path hin h
    · rw [requestStart_miss_attached s path now pid hc hin]
      exact h
  · by_cases hf : now - c.time < CACHE_TTL
    · rw [requestStart_fresh s path now c hc hf]
      exact h
    · by_cases hs2 : now - c.time < STALE_TTL
      · rw [requestStart_stale s path now c hc (Nat.not_lt.mp hf) hs2]
        exact flightInv_revalidateStart s path h
      · rcases hin : mlookup s.inflight (getCacheKey path none) with _ | pid
        · rw [requestStart_expired_new s path now c hc (Nat.not_lt.mp hs2) hin]
          exact flightInv_issueCall_get s path hin h
        · rw [requestStart_expired_attached s path now c pid hc
            (Nat.not_lt.mp hs2) hin]
          exact h

theorem flightInv_requestStart_post (s : SWState) (path : String)
    (now : Nat) (h : FlightInv s) :
    FlightInv (requestStart s path (some "POST") now).1 := by
  rw [requestStart_post]
  exact flightInv_issueCall_post s path h

theorem flightInv_settle (s : SWState) (pid : Nat) (o : FetchOutcome)
    (now : Nat) (s' : SWState) (r : SettleResult) (hk : KeyInv s)
    (h : FlightInv s) (hstep : settleStep s pid o now = some (s', r)) :
    FlightInv s' := by
  obtain ⟨pk0, hpk0, hpend, hinf, hnext, -⟩ :=
    settleStep_state s pid o now s' r hstep
  obtain ⟨f1, f2⟩ := h
  constructor
  · intro pid' pk' hp' hlike'
    rw [hpend, mlookup_mdel_eq] at hp'
    by_cases he : pid = pid'
    · rw [if_pos he] at hp'
      cases hp'
    · rw [if_neg he] at hp'
      have hreg' := f1 pid' pk' hp' hlike'
      rw [hinf, mlookup_mdel_eq]
      have hne : pendKey pk0 ≠ pendKey pk' := by
        rcases hlike0 : isGetLike pk0 with - | -
        · obtain ⟨p, hp⟩ := hk.2.1 pid pk0 hpk0 hlike0
          obtain ⟨q, hq⟩ := hk.1 pid' pk' hp' hlike'
          rw [hp, hq]
          exact fun hcontra => get_post_key_ne q p hcontra.symm
        · have hreg0 := f1 pid pk0 hpk0 hlike0
          intro hcontra
          rw [hcontra, hreg'] at hreg0
          exact he (Option.some.inj hreg0).symm
      rw [if_neg hne]
      exact hreg'
  · intro pid' pk' hp'
    rw [hpend, mlookup_mdel_eq] at hp'
    rw [hnext]
    by_cases he : pid = pid'
    · rw [if_pos he] at hp'
      cases hp'
    · rw [if_neg he] at hp'
      exact f2 pid' pk' hp'

theorem flightInv_invalidate (s : SWState) (pre : String)
    (h : FlightInv s) : FlightInv (invalidate s pre) := h

/-- The operation is `clearAllCache()`. -/
def isClearOp : Op → Bool
  | Op.clear => true
  | _ => false

/-- `FlightInv` is preserved by every operation except `clearAllCache`
(which wipes the registry while letting started fetches run on). -/
theorem flightInv_applyOp (s : SWState) (op : Op)
    (hop : isClearOp op = false) (hk : KeyInv s) (h : FlightInv s) :
    FlightInv (applyOp s op) := by
  cases op with
  | getReq path now => exact flightInv_requestStart_get s path now h
  | postReq path now => exact flightInv_requestStart_post s path now h
  | settles pid o now =>
    rcases hst : settleStep s pid o now with _ | ⟨s', r⟩
    · simpa [applyOp, hst] using h
    · have := flightInv_settle s pid o now s' r hk h hst
      simpa [applyOp, hst] using this
  | inval pre => exact flightInv_invalidate s pre h
  | clear => simp [isClearOp] at hop

theorem flightInv_runOps (ops : List Op) (s : SWState)
    (hops : ∀ op ∈ ops, isClearOp op = false) (hk : KeyInv s)
    (h : FlightInv s) : FlightInv (runOps s ops) := by
  induction ops generalizing s with
  | nil => exact h
  | cons op rest ih =>
    exact ih (applyOp s op)
      (fun o ho => hops o (List.mem_cons_of_mem op ho))
      (keyInv_applyOp s op hk)
      (flightInv_applyOp s op (hops op (List.mem_cons_self op rest)) hk h)

/-! ## Trace lemmas for concurrent GETs -/

/-- No fresh or stale cache entry for the key: any entry present is
already past `STALE_TTL`. -/
def NoServableEntry (s : SWState) (path : String) (now : Nat) : Prop :=
  ∀ c, mlookup s.cache (getCacheKey path none) = some c →
    STALE_TTL ≤ now - c.time

theorem requestStart_noServe_attached (s : SWState) (path : String)
    (now pid : Nat) (hns : NoServableEntry s path now)
    (hin : mlookup s.inflight (getCacheKey path none) = some pid) :
    requestStart s path none now = (s, ReqResult.attached pid) := by
  rcases hc : mlookup s.cache (getCacheKey path none) with _ | c
  · exact requestStart_miss_attached s path now pid hc hin
  · exact requestStart_expired_attached s path now c pid hc (hns c hc) hin

theorem requestStart_noServe_new (s : SWState) (path : String)
    (now : Nat) (hns : NoServableEntry s path now)
    (hin : mlookup s.inflight (getCacheKey path none) = none) :
    requestStart s path none now =
      issueCall s path (getCacheKey path none) true := by
  rcases hc : mlookup s.cache (getCacheKey path none) with _ | c
  · exact requestStart_miss_new s path now hc hin
  · exact requestStart_expired_new s path now c hc (hns c hc) hin

theorem requestN_attached (s : SWState) (path : String) (now pid : Nat)
    (n : Nat) (hns : NoServableEntry s path now)
    (hin : mlookup s.inflight (getCacheKey path none) = some pid) :
    requestN s path now n = (s, List.replicate n (ReqResult.attached pid)) := by
  induction n with
  | zero => simp [requestN]
  | succ n ih =>
    rw [requestN, requestStart_noServe_attached s path now pid hns hin]
    simp [ih, List.replicate_succ]

theorem requestN_single (s : SWState) (path : String) (now : Nat) (n : Nat)
    (hns : NoServableEntry s path now)
    (hin : mlookup s.inflight (getCacheKey path none) = none) :
    requestN s path now (n + 1) =
      ((issueCall s path (getCacheKey path none) true).1,
       ReqResult.newCall s.nextId ::
         List.replicate n (ReqResult.attached s.nextId)) := by
  rw [requestN, requestStart_noServe_new s path now hns hin]
  have hns1 : NoServableEntry (issueCall s path (getCacheKey path none)
      true).1 path now := by
    intro c hc
    exact hns c (by simpa [issueCall] using hc)
  have hin1 : mlookup (issueCall s path (getCacheKey path none) true).1.inflight
      (getCacheKey path none) = some s.nextId := by
    simp [issueCall, mlookup_mset_eq]
  rw [requestN_attached _ path now s.nextId n hns1 hin1]
  simp [issueCall]

/-! ## Claims -/

/-- C1.  Single-flight: with no fresh or stale cache entry for the key
(at most an expired one) and nothing in flight, `N + 1` concurrent GETs
to the same path (all issued before any settles) create exactly one
pending network call — the first caller gets
`newCall pid` and every later caller attaches to the same `pid`, with the
state mutated only by the first caller's registration.  Since a
settlement (`settleStep`) produces a single `SettleResult` shared by every
holder of the pid, all callers receive the same value or the same error.
Moreover, in every state reachable without `clearAllCache`, every pending
registry-participating network call is registered in the in-flight map
under its key — a request can never be underway for a key that is not
in-flight. -/
theorem C1_single_flight :
    (∀ (s : SWState) (path : String) (now n : Nat),
      NoServableEntry s path now →
      mlookup s.inflight (getCacheKey path none) = none →
      requestN s path now (n + 1) =
        ({ cache := s.cache
           inflight := mset s.inflight (getCacheKey path none) s.nextId
           pending := (s.nextId,
             PendingKind.foreground true path (getCacheKey path none)) ::
               s.pending
           nextId := s.nextId + 1 },
         ReqResult.newCall s.nextId ::
           List.replicate n (ReqResult.attached s.nextId))) ∧
    (∀ (ops : List Op) (s : SWState),
      (∀ op ∈ ops, isClearOp op = false) →
      runOps initState ops = s →
      ∀ pid pk, mlookup s.pending pid = some pk → isGetLike pk = true →
        mlookup s.inflight (pendKey pk) = some pid) := by
  constructor
  · intro s path now n hns hin
    rw [requestN_single s path now n hns hin]
    simp [issueCall]
  · intro ops s hops hrun pid pk hpk hlike
    have hk := keyInv_runOps ops initState keyInv_init
    have hf := flightInv_runOps ops initState hops keyInv_init flightInv_init
    rw [hrun] at hf
    exact hf.1 pid pk hpk hlike

/-- Witness for C1 at a concrete input: three concurrent GETs of
`/api/health` from the empty state make one network call (promise id 0)
and the two later callers attach to it; and after the clear-free trace
that starts that call, the pending call is registered in-flight. -/
theorem C1_single_flight_witness :
    requestN initState "/api/health" 0 3 =
      ({ cache := []
         inflight := [("GET:/api/health", 0)]
         pending := [(0, PendingKind.foreground true "/api/health"
           "GET:/api/health")]
         nextId := 1 },
       [ReqResult.newCall 0, ReqResult.attached 0, ReqResult.attached 0]) ∧
    mlookup (runOps initState [Op.getReq "/api/health" 0]).inflight
      "GET:/api/health" = some 0 := by
  constructor
  · have h := C1_single_flight.1 initState "/api/health" 0 2
      (fun c hc => Option.noConfusion hc) rfl
    simpa [initState, mset, getCacheKey, effMethod,
      List.replicate] using h
  · exact C1_single_flight.2 [Op.getReq "/api/health" 0]
      (runOps initState [Op.getReq "/api/health" 0])
      (by decide) rfl 0
      (PendingKind.foreground true "/api/health" "GET:/api/health")
      (by decide) rfl

/-- C2.  Freshness windows for a GET whose key has a cache entry of age
`a = now - time`: `a < CACHE_TTL` (120000 ms) serves the cached payload
with no state change and no network call; `CACHE_TTL ≤ a < STALE_TTL`
(600000 ms) serves the cached payload and, when nothing is in flight for
the key, registers exactly one background revalidation call (when
something is in flight, no new call is made); `STALE_TTL ≤ a` is treated
as a miss: with nothing in flight a new blocking foreground call is
issued. -/
theorem C2_freshness_windows (s : SWState) (path : String) (now : Nat)
    (c : CacheEntry)
    (hc : mlookup s.cache (getCacheKey path none) = some c) :
    (now - c.time < CACHE_TTL →
      requestStart s path none now = (s, ReqResult.fresh c.data)) ∧
    (CACHE_TTL ≤ now - c.time → now - c.time < STALE_TTL →
      mlookup s.inflight (getCacheKey path none) = none →
      requestStart s path none now =
        ({ cache := s.cache
           inflight := mset s.inflight (getCacheKey path none) s.nextId
           pending := (s.nextId,
             PendingKind.background path (getCacheKey path none)) :: s.pending
           nextId := s.nextId + 1 },
         ReqResult.staleServed c.data)) ∧
    (CACHE_TTL ≤ now - c.time → now - c.time < STALE_TTL →
      ∀ pid, mlookup s.inflight (getCacheKey path none) = some pid →
        requestStart s path none now = (s, ReqResult.staleServed c.data)) ∧
    (STALE_TTL ≤ now - c.time →
      mlookup s.inflight (getCacheKey path none) = none →
      requestStart s path none now =
        ({ cache := s.cache
           inflight := mset s.inflight (getCacheKey path none) s.nextId
           pending := (s.nextId,
             PendingKind.foreground true path (getCacheKey path none)) ::
               s.pending
           nextId := s.nextId + 1 },
         ReqResult.newCall s.nextId)) ∧
    CACHE_TTL = 120000 ∧ STALE_TTL = 600000 := by
  refine ⟨?_, ?_, ?_, ?_, rfl, rfl⟩
  · intro hf
    exact requestStart_fresh s path now c hc hf
  · intro h1 h2 hin
    rw [requestStart_stale s path now c hc h1 h2]
    unfold revalidateStart
    rw [hin]
  · intro h1 h2 pid hin
    rw [requestStart_stale s path now c hc h1 h2]
    unfold revalidateStart
    rw [hin]
  · intro h2 hin
    rw [requestStart_expired_new s path now c hc h2 hin]
    simp [issueCall]

/-- Witness for C2 at the claim's scenario: entry cached at `t = 0`,
GETs at `t = 119999` (fresh, no call), `t = 120001` (stale: served plus
one background call) and `t = 600001` (expired: new blocking call). -/
theorem C2_freshness_windows_witness :
    requestStart ⟨[("GET:/x", ⟨5, 0⟩)], [], [], 1⟩ "/x" none 119999 =
      (⟨[("GET:/x", ⟨5, 0⟩)], [], [], 1⟩, ReqResult.fresh 5) ∧
    requestStart ⟨[("GET:/x", ⟨5, 0⟩)], [], [], 1⟩ "/x" none 120001 =
      (⟨[("GET:/x", ⟨5, 0⟩)], [("GET:/x", 1)],
        [(1, PendingKind.background "/x" "GET:/x")], 2⟩,
       ReqResult.staleServed 5) ∧
    requestStart ⟨[("GET:/x", ⟨5, 0⟩)], [], [], 1⟩ "/x" none 600001 =
      (⟨[("GET:/x", ⟨5, 0⟩)], [("GET:/x", 1)],
        [(1, PendingKind.foreground true "/x" "GET:/x")], 2⟩,
       ReqResult.newCall 1) := by
  refine ⟨?_, ?_, ?_⟩
  · exact (C2_freshness_windows ⟨[("GET:/x", ⟨5, 0⟩)], [], [], 1⟩
      "/x" 119999 ⟨5, 0⟩ (by decide)).1 (by decide)
  · have h := (C2_freshness_windows ⟨[("GET:/x", ⟨5, 0⟩)], [], [], 1⟩
      "/x" 120001 ⟨5, 0⟩ rfl).2.1 (by decide) (by decide) rfl
    simpa [mset, getCacheKey, effMethod] using h
  · have h := (C2_freshness_windows ⟨[("GET:/x", ⟨5, 0⟩)], [], [], 1⟩
      "/x" 600001 ⟨5, 0⟩ rfl).2.2.2.1 (by decide) rfl
    simpa [mset, getCacheKey, effMethod] using h

/-- The state after: GET `/x` at `t = 0`, its call settling with payload
`7` at `t = 0`, and a second GET at `t = 120000` that hits the stale
window and registers a background revalidation (promise id 1). -/
def c3State : SWState :=
  runOps initState
    [Op.getReq "/x" 0, Op.settles 0 (FetchOutcome.success 7) 0,
     Op.getReq "/x" 120000]

/-- Counterexample to C3: at `t = 600000` the entry is expired, so a GET
attaches to the in-flight promise 1 — which was registered by the
background revalidation.  When the underlying network call resolves with
payload `9`, the revalidation promise resolves with `undefined` (its last
`.then` callback returns nothing), so the attached caller does NOT
receive the decoded JSON payload. -/
theorem C3_counterexample :
    (requestStart c3State "/x" none 600000).2 = ReqResult.attached 1 ∧
    (settleStep c3State 1 (FetchOutcome.success 9) 600000).map Prod.snd =
      some (SettleResult.resolved JSVal.undef) ∧
    SettleResult.resolved JSVal.undef ≠
      SettleResult.resolved (JSVal.json 9) := by decide

/-- What the revalidation promise resolves with when its network call
settles with outcome `o` in state `s`: `undefined` from the block-bodied
second `.then` (any response, 2xx or not), or the boolean returned by
`inflight.delete(key)` from the concise-bodied `.catch` (decode or
transport failure).  Never a decoded payload and never a rejection. -/
def revalResolution (s : SWState) (key : String) : FetchOutcome → JSVal
  | FetchOutcome.success _ => JSVal.undef
  | FetchOutcome.httpErr _ => JSVal.undef
  | _ => JSVal.jsbool (mlookup s.inflight key).isSome

/-- C3 (amended).  A GET that attaches to an existing in-flight request
receives that promise's settlement value: when the in-flight entry was
registered by a foreground fetch, that is the decoded JSON payload the
network call resolves with (or, on failure, the stale-fallback/rejection
of C4/C5); but when the in-flight entry was registered by a background
revalidation, the promise resolves with `undefined` (or, on the caught
decode/transport path, with `Map.delete`'s boolean) — in no case does the
attached caller get the payload, and no error ever reaches it. -/
theorem C3_attach_settlement (s : SWState) (pid : Nat) (now : Nat) :
    (∀ isGet path key d,
      mlookup s.pending pid = some (PendingKind.foreground isGet path key) →
      (settleStep s pid (FetchOutcome.success d) now).map Prod.snd =
        some (SettleResult.resolved (JSVal.json d))) ∧
    (∀ path key o,
      mlookup s.pending pid = some (PendingKind.background path key) →
      (settleStep s pid o now).map Prod.snd =
        some (SettleResult.resolved (revalResolution s key o)) ∧
      ∀ d, revalResolution s key o ≠ JSVal.json d) := by
  constructor
  · intro isGet path key d hpk
    rw [settleStep_foreground s pid (FetchOutcome.success d) now isGet
      path key hpk, settleForeground_success]
    rfl
  · intro path key o hpk
    constructor
    · rw [settleStep_background s pid o now path key hpk]
      rcases o with d | st | _ | _
      · rw [settleBackground_success]
        rfl
      · rw [settleBackground_httpErr]
        rfl
      · rw [settleBackground_caught _ _ _ _ (Or.inl rfl)]
        rfl
      · rw [settleBackground_caught _ _ _ _ (Or.inr rfl)]
        rfl
    · intro d
      rcases o with _ | _ | _ | _ <;> simp [revalResolution]

/-- Witness for the amended C3: in `c3State`, settling the
background-registered promise 1 with the payload `9` delivers
`undefined` to attached callers, and a transport failure delivers the
`Map.delete` boolean; settling a foreground pending call delivers the
payload. -/
theorem C3_attach_settlement_witness :
    (settleStep c3State 1 (FetchOutcome.success 9) 600000).map Prod.snd =
      some (SettleResult.resolved JSVal.undef) ∧
    (settleStep c3State 1 FetchOutcome.transportErr 600000).map Prod.snd =
      some (SettleResult.resolved (JSVal.jsbool true)) ∧
    (settleStep (runOps initState [Op.getReq "/x" 0]) 0
        (FetchOutcome.success 7) 0).map Prod.snd =
      some (SettleResult.resolved (JSVal.json 7)) := by
  refine ⟨?_, ?_, ?_⟩
  · have h := ((C3_attach_settlement c3State 1 600000).2 "/x" "GET:/x"
      (FetchOutcome.success 9) (by decide)).1
    simpa [revalResolution] using h
  · have h := ((C3_attach_settlement c3State 1 600000).2 "/x" "GET:/x"
      FetchOutcome.transportErr (by decide)).1
    have hb : (mlookup c3State.inflight "GET:/x").isSome = true := by decide
    simpa [revalResolution, hb] using h
  · exact (C3_attach_settlement (runOps initState [Op.getReq "/x" 0]) 0 0).1
      true "/x" "GET:/x" 7 (by decide)

/-- C4.  Fail-soft fallback: when the network call behind a foreground
GET fails (non-2xx, JSON-decode failure, or transport error) and any
cache entry exists for the key — with no freshness condition, so even one
older than `STALE_TTL` — the promise resolves with the previously cached
payload; it rejects only when no entry exists for the key. -/
theorem C4_fail_soft_fallback (s : SWState) (pid : Nat) (o : FetchOutcome)
    (now : Nat) (isGet : Bool) (path key : String)
    (hpk : mlookup s.pending pid =
      some (PendingKind.foreground isGet path key))
    (ho : ∀ d, o ≠ FetchOutcome.success d) :
    (∀ e, mlookup s.cache key = some e →
      settleStep s pid o now =
        some ({ s with
                 inflight := mdel s.inflight key
                 pending := mdel s.pending pid },
              SettleResult.resolved (JSVal.json e.data))) ∧
    (mlookup s.cache key = none →
      settleStep s pid o now =
        some ({ s with
                 inflight := mdel s.inflight key
                 pending := mdel s.pending pid },
              SettleResult.rejected)) := by
  constructor
  · intro e hcl
    have hcl' : mlookup ({ s with pending := mdel s.pending pid } :
        SWState).cache key = some e := hcl
    rw [settleStep_foreground s pid o now isGet path key hpk,
      settleForeground_fail_fallback _ _ _ _ _ e ho hcl']
  · intro hcl
    have hcl' : mlookup ({ s with pending := mdel s.pending pid } :
        SWState).cache key = none := hcl
    rw [settleStep_foreground s pid o now isGet path key hpk,
      settleForeground_fail_reject _ _ _ _ _ ho hcl']

/-- Witness for C4: a GET whose cache entry is far older than
`STALE_TTL` still serves as fallback when the refetch fails with a 500. -/
theorem C4_fail_soft_fallback_witness :
    settleStep ⟨[("GET:/x", ⟨5, 0⟩)], [("GET:/x", 3)],
        [(3, PendingKind.foreground true "/x" "GET:/x")], 4⟩
      3 (FetchOutcome.httpErr 500) 9999999 =
      some (⟨[("GET:/x", ⟨5, 0⟩)], [], [], 4⟩,
            SettleResult.resolved (JSVal.json 5)) := by
  have h := (C4_fail_soft_fallback ⟨[("GET:/x", ⟨5, 0⟩)], [("GET:/x", 3)],
      [(3, PendingKind.foreground true "/x" "GET:/x")], 4⟩
    3 (FetchOutcome.httpErr 500) 9999999 true "/x" "GET:/x"
    (by decide) (fun d hd => FetchOutcome.noConfusion hd)).1 ⟨5, 0⟩ (by decide)
  simpa [mdel, List.filter] using h

/-- C5.  Clean failure without fallback: when the network call behind a
foreground GET fails and no cache entry exists for the key, the promise
rejects (the error propagates untouched), the cache is left exactly as it
was (no entry is created), and the in-flight registry entry for the key
is removed. -/
theorem C5_clean_failure (s : SWState) (pid : Nat) (o : FetchOutcome)
    (now : Nat) (path key : String)
    (hpk : mlookup s.pending pid =
      some (PendingKind.foreground true path key))
    (ho : ∀ d, o ≠ FetchOutcome.success d)
    (hcl : mlookup s.cache key = none) :
    settleStep s pid o now =
      some ({ s with
               inflight := mdel s.inflight key
               pending := mdel s.pending pid },
            SettleResult.rejected) ∧
    mlookup (mdel s.inflight key) key = none := by
  constructor
  · have hcl' : mlookup ({ s with pending := mdel s.pending pid } :
        SWState).cache key = none := hcl
    rw [settleStep_foreground s pid o now true path key hpk,
      settleForeground_fail_reject _ _ _ _ _ ho hcl']
  · exact mlookup_mdel_self s.inflight key

/-- Witness for C5: first GET of `/x` fails in transport; the caller sees
the rejection and both maps are empty again. -/
theorem C5_clean_failure_witness :
    settleStep (runOps initState [Op.getReq "/x" 0]) 0
        FetchOutcome.transportErr 5 =
      some (⟨[], [], [], 1⟩, SettleResult.rejected) := by
  have h := (C5_clean_failure (runOps initState [Op.getReq "/x" 0]) 0
    FetchOutcome.transportErr 5 "/x" "GET:/x" (by decide)
    (fun d hd => FetchOutcome.noConfusion hd) (by decide)).1
  simpa [runOps, initState, applyOp, mdel, List.filter] using h

/-- C6.  Mutating bypass: a POST skips the cache check and the dedup
check entirely — its synchronous phase leaves `cache` and `inflight`
untouched and always starts a fresh network call, so two concurrent
identical POSTs produce two separate network calls with distinct promise
ids; a successful POST writes no `CacheEntry`; and in any reachable
state a failing POST rejects (no stale fallback can exist for a POST
key). -/
theorem C6_post_bypass :
    (∀ (s : SWState) (path : String) (now : Nat),
      requestStart s path (some "POST") now =
        ({ cache := s.cache
           inflight := s.inflight
           pending := (s.nextId, PendingKind.foreground false path
             (getCacheKey path (some "POST"))) :: s.pending
           nextId := s.nextId + 1 },
         ReqResult.newCall s.nextId)) ∧
    (∀ (s : SWState) (path : String) (now : Nat),
      (requestStart (requestStart s path (some "POST") now).1
          path (some "POST") now).2 = ReqResult.newCall (s.nextId + 1) ∧
        s.nextId ≠ s.nextId + 1) ∧
    (∀ (s : SWState) (pid : Nat) (path key : String) (d now : Nat),
      mlookup s.pending pid =
        some (PendingKind.foreground false path key) →
      settleStep s pid (FetchOutcome.success d) now =
        some ({ s with
                 inflight := mdel s.inflight key
                 pending := mdel s.pending pid },
              SettleResult.resolved (JSVal.json d))) ∧
    (∀ (s : SWState) (pid : Nat) (path key : String) (o : FetchOutcome)
        (now : Nat),
      Reachable s →
      mlookup s.pending pid =
        some (PendingKind.foreground false path key) →
      (∀ d, o ≠ FetchOutcome.success d) →
      (settleStep s pid o now).map Prod.snd =
        some SettleResult.rejected) := by
  refine ⟨?_, ?_, ?_, ?_⟩
  · intro s path now
    rw [requestStart_post]
    simp [issueCall]
  · intro s path now
    rw [requestStart_post, requestStart_post]
    simp [issueCall]
  · intro s pid path key d now hpk
    rw [settleStep_foreground s pid (FetchOutcome.success d) now false
      path key hpk, settleForeground_success]
    simp
  · intro s pid path key o now hreach hpk ho
    have hk := reachable_keyInv s hreach
    obtain ⟨q, hq⟩ := hk.2.1 pid
      (PendingKind.foreground false path key) hpk rfl
    have hkey : key = getCacheKey q (some "POST") := hq
    have hcl : mlookup s.cache key = none := by
      rcases hmm : mlookup s.cache key with _ | e
      · rfl
      · obtain ⟨p, hp⟩ := hk.2.2 key e hmm
        exact absurd (hp.symm.trans hkey) (get_post_key_ne p q)
    have hcl' : mlookup ({ s with pending := mdel s.pending pid } :
        SWState).cache key = none := hcl
    rw [settleStep_foreground s pid o now false path key hpk,
      settleForeground_fail_reject _ _ _ _ _ ho hcl']
    rfl

/-- Witness for C6: a POST from the empty state touches neither map, a
second concurrent POST gets its own call, its success caches nothing, and
its failure rejects. -/
theorem C6_post_bypass_witness :
    requestStart initState "/api/mufap/scrape/sync" (some "POST") 0 =
      (⟨[], [],
        [(0, PendingKind.foreground false "/api/mufap/scrape/sync"
          "POST:/api/mufap/scrape/sync")], 1⟩,
       ReqResult.newCall 0) ∧
    (settleStep (runOps initState [Op.postReq "/x" 0]) 0
        FetchOutcome.transportErr 1).map Prod.snd =
      some SettleResult.rejected := by
  constructor
  · have h := C6_post_bypass.1 initState "/api/mufap/scrape/sync" 0
    simpa [initState, getCacheKey, effMethod] using h
  · exact C6_post_bypass.2.2.2 (runOps initState [Op.postReq "/x" 0]) 0
      "/x" "POST:/x" FetchOutcome.transportErr 1
      ⟨[Op.postReq "/x" 0], rfl⟩ (by decide)
      (fun d hd => FetchOutcome.noConfusion hd)

/-- Cache with entries for the two keys of the claim's example. -/
def c7State : SWState :=
  ⟨[("GET:/api/mufap/funds", ⟨1, 0⟩), ("GET:/api/psx/stocks", ⟨2, 0⟩)],
   [], [], 0⟩

/-- C7.  `invalidate(prefix)` removes exactly the cache entries whose key
contains the argument as a substring, and no others; on the claim's
example it removes `GET:/api/mufap/funds` and keeps
`GET:/api/psx/stocks`; the match is substring containment, not a
structural path-prefix match, as the mid-key match `mufap/fun` shows. -/
theorem C7_invalidate_substring (s : SWState) (pre k : String) :
    mlookup (invalidate s pre).cache k =
      (if strIncludes k pre then none else mlookup s.cache k) ∧
    mlookup (invalidate c7State "/api/mufap/").cache
      "GET:/api/mufap/funds" = none ∧
    mlookup (invalidate c7State "/api/mufap/").cache
      "GET:/api/psx/stocks" = some ⟨2, 0⟩ ∧
    strIncludes "GET:/api/mufap/funds" "mufap/fun" = true ∧
    mlookup (invalidate c7State "mufap/fun").cache
      "GET:/api/mufap/funds" = none := by
  refine ⟨invalidate_lookup s pre k, ?_, ?_, ?_, ?_⟩ <;> decide

/-- Counterexample to C8: the claim says revalidation "on success
overwrites the cache entry for that key with the new payload and a new
timestamp", but the source's write is guarded by `if (data)` — a 2xx
response whose body decodes to a falsy JSON value (here the payload `0`,
encoding `null`/`false`/`0`/`""`) is a decode success whose result is
discarded: the entry for `GET:/x` still carries payload `7` at time `0`,
not the new payload at the settlement time `130000`. -/
theorem C8_counterexample :
    payloadTruthy 0 = false ∧
    (settleStep c3State 1 (FetchOutcome.success 0) 130000).map
        (fun sr => mlookup sr.1.cache "GET:/x") =
      some (some ⟨7, 0⟩) ∧
    some (some (⟨7, 0⟩ : CacheEntry)) ≠
      some (some (⟨0, 130000⟩ : CacheEntry)) := by decide

/-- C8 (amended).  Background revalidation overwrites the cache entry
for its key with the new payload and the settlement timestamp only on a
success whose decoded payload is truthy; a success whose payload is
falsy fails the `if (data)` guard and is silently discarded like a
failure.  On every non-success — non-2xx status, JSON-decode failure, or
transport error — the cache is untouched.  In every case nothing new is
scheduled (`pending` only shrinks, `nextId` is unchanged) and the
promise resolves (with `undefined`, or with `Map.delete`'s boolean on
the caught decode/transport path) — never rejects, so no error reaches
any caller. -/
theorem C8_revalidation_settlement (s : SWState) (pid : Nat)
    (path key : String) (now : Nat)
    (hpk : mlookup s.pending pid =
      some (PendingKind.background path key)) :
    (∀ d, payloadTruthy d = true →
      settleStep s pid (FetchOutcome.success d) now =
        some ({ s with
                 cache := mset s.cache key ⟨d, now⟩
                 inflight := mdel s.inflight key
                 pending := mdel s.pending pid },
              SettleResult.resolved JSVal.undef)) ∧
    (∀ d, payloadTruthy d = false →
      settleStep s pid (FetchOutcome.success d) now =
        some ({ s with
                 inflight := mdel s.inflight key
                 pending := mdel s.pending pid },
              SettleResult.resolved JSVal.undef)) ∧
    (∀ st, settleStep s pid (FetchOutcome.httpErr st) now =
      some ({ s with
               inflight := mdel s.inflight key
               pending := mdel s.pending pid },
            SettleResult.resolved JSVal.undef)) ∧
    (∀ o, (o = FetchOutcome.jsonErr ∨ o = FetchOutcome.transportErr) →
      settleStep s pid o now =
        some ({ s with
                 inflight := mdel s.inflight key
                 pending := mdel s.pending pid },
              SettleResult.resolved
                (JSVal.jsbool (mlookup s.inflight key).isSome))) := by
  refine ⟨?_, ?_, ?_, ?_⟩
  · intro d ht
    rw [settleStep_background s pid (FetchOutcome.success d) now path key
      hpk, settleBackground_success, ht]
    simp
  · intro d ht
    rw [settleStep_background s pid (FetchOutcome.success d) now path key
      hpk, settleBackground_success, ht]
    simp
  · intro st
    rw [settleStep_background s pid (FetchOutcome.httpErr st) now path key
      hpk, settleBackground_httpErr]
  · intro o ho
    rw [settleStep_background s pid o now path key hpk,
      settleBackground_caught _ _ _ _ ho]

/-- Witness for the amended C8 on the background call of `c3State`: a
truthy success overwrites the entry with payload 9 at its settlement
time, a falsy success and a 404 both leave the cached payload 7 in place
and resolve `undefined`, and a transport failure resolves the
`Map.delete` boolean. -/
theorem C8_revalidation_settlement_witness :
    settleStep c3State 1 (FetchOutcome.success 9) 130000 =
      some (⟨[("GET:/x", ⟨9, 130000⟩)], [], [], 2⟩,
            SettleResult.resolved JSVal.undef) ∧
    settleStep c3State 1 (FetchOutcome.success 0) 130000 =
      some (⟨[("GET:/x", ⟨7, 0⟩)], [], [], 2⟩,
            SettleResult.resolved JSVal.undef) ∧
    settleStep c3State 1 (FetchOutcome.httpErr 404) 130000 =
      some (⟨[("GET:/x", ⟨7, 0⟩)], [], [], 2⟩,
            SettleResult.resolved JSVal.undef) ∧
    settleStep c3State 1 FetchOutcome.transportErr 130000 =
      some (⟨[("GET:/x", ⟨7, 0⟩)], [], [], 2⟩,
            SettleResult.resolved (JSVal.jsbool true)) := by
  have h := C8_revalidation_settlement c3State 1 "/x" "GET:/x" 130000
    (by decide)
  refine ⟨?_, ?_, ?_, ?_⟩
  · rw [h.1 9 (by decide)]
    decide
  · rw [h.2.1 0 (by decide)]
    decide
  · rw [h.2.2.1 404]
    decide
  · rw [h.2.2.2 FetchOutcome.transportErr (Or.inr rfl)]
    decide

theorem deletionsBeforeClaim_append (L : List ActEvent)
    (hmem : ∀ e ∈ L, isDeletion e = true) :
    deletionsBeforeClaim (L ++ [ActEvent.claimClients]) := by
  intro i j hi hj
  have hlen : (L ++ [ActEvent.claimClients]).length = L.length + 1 := by
    simp
  have hi' : ¬ (i : Nat) < L.length := by
    intro hlt
    have hgi : (L ++ [ActEvent.claimClients]).get i =
        L.get ⟨(i : Nat), hlt⟩ := by
      show (L ++ [ActEvent.claimClients])[(i : Nat)] = _
      rw [List.getElem_append_left hlt]
      rfl
    rw [hgi] at hi
    have hmem' := hmem (L.get ⟨(i : Nat), hlt⟩) (List.get_mem L (i : Nat) hlt)
    rw [hi] at hmem'
    simp [isDeletion] at hmem'
  have hj' : (j : Nat) < L.length := by
    rcases Nat.lt_or_ge (j : Nat) L.length with hlt | hge
    · exact hlt
    · exfalso
      have hjlt : (j : Nat) < L.length + 1 := lt_of_lt_of_eq j.isLt hlen
      have hjeq : (j : Nat) - L.length = 0 := by omega
      have hgj : (L ++ [ActEvent.claimClients]).get j =
          ActEvent.claimClients := by
        show (L ++ [ActEvent.claimClients])[(j : Nat)] = _
        rw [List.getElem_append_right hge]
        simp [hjeq]
      rw [hgj] at hj
      simp [isDeletion] at hj
  have hilt : (i : Nat) < L.length + 1 := lt_of_lt_of_eq i.isLt hlen
  omega

/-- Counterexample to C9: in the `activate` handler of
`src/frontend-service/static/sw.js`, `self.clients.claim()` runs
synchronously inside the handler while the old-cache deletions are only
scheduled through `event.waitUntil(...)`, so with an old cache
`pk-finance-v7` present the claim happens before the deletion completes —
the deletion does not complete before the worker claims its clients. -/
theorem C9_counterexample :
    deletesName (activateStatic ["pk-finance-v7", "pk-finance-v8"])
      "pk-finance-v7" ∧
    ¬ deletionsBeforeClaim
      (activateStatic ["pk-finance-v7", "pk-finance-v8"]) := by
  constructor
  · decide
  · decide

/-- C9 (amended).  On activate, both workers delete every cache
namespace other than their own version tag and keep the current one; in
`public/sw.js` the claim of clients is chained after the deletions, so
every deletion precedes it, but in `static/sw.js` the claim is the first
observable action, issued before any deletion completes. -/
theorem C9_activate_cleanup (keys : List String) :
    (∀ n, n ∈ keys → n ≠ CACHE_NAME_static →
      deletesName (activateStatic keys) n) ∧
    ¬ deletesName (activateStatic keys) CACHE_NAME_static ∧
    (∀ n, n ∈ keys → n ≠ CACHE_NAME_public →
      deletesName (activatePublic keys) n) ∧
    ¬ deletesName (activatePublic keys) CACHE_NAME_public ∧
    deletionsBeforeClaim (activatePublic keys) ∧
    (activateStatic keys).head? = some ActEvent.claimClients := by
  refine ⟨?_, ?_, ?_, ?_, ?_, ?_⟩
  · intro n hn hne
    have h1 : n ∈ keys.filter (fun k => k ≠ CACHE_NAME_static) :=
      List.mem_filter.mpr ⟨hn, by simpa using hne⟩
    exact List.mem_cons_of_mem _
      (List.mem_map_of_mem ActEvent.cacheDeleted h1)
  · intro hmem
    unfold deletesName activateStatic at hmem
    rcases List.mem_cons.mp hmem with h | h
    · cases h
    · obtain ⟨n, hn, he⟩ := List.mem_map.mp h
      injection he with he'
      have hn' := List.mem_filter.mp hn
      rw [he'] at hn'
      simp at hn'
  · intro n hn hne
    have h1 : n ∈ keys.filter (fun k => k ≠ CACHE_NAME_public) :=
      List.mem_filter.mpr ⟨hn, by simpa using hne⟩
    exact List.mem_append_left _
      (List.mem_map_of_mem ActEvent.cacheDeleted h1)
  · intro hmem
    unfold deletesName activatePublic at hmem
    rcases List.mem_append.mp hmem with h | h
    · obtain ⟨n, hn, he⟩ := List.mem_map.mp h
      injection he with he'
      have hn' := List.mem_filter.mp hn
      rw [he'] at hn'
      simp at hn'
    · simp at h
  · unfold activatePublic
    apply deletionsBeforeClaim_append
    intro e he
    obtain ⟨n, -, hn⟩ := List.mem_map.mp he
    rw [← hn]
    rfl
  · rfl

/-- Witness for the amended C9 on concrete cache listings. -/
theorem C9_activate_cleanup_witness :
    deletesName (activateStatic ["pk-finance-v7", "pk-finance-v8"])
      "pk-finance-v7" ∧
    deletesName (activatePublic ["fintraxa-v0", "fintraxa-v1"])
      "fintraxa-v0" ∧
    deletionsBeforeClaim (activatePublic ["fintraxa-v0", "fintraxa-v1"]) := by
  refine ⟨?_, ?_, ?_⟩
  · exact (C9_activate_cleanup ["pk-finance-v7", "pk-finance-v8"]).1
      "pk-finance-v7" (by decide) (by decide)
  · exact (C9_activate_cleanup ["fintraxa-v0", "fintraxa-v1"]).2.2.1
      "fintraxa-v0" (by decide) (by decide)
  · exact (C9_activate_cleanup ["fintraxa-v0", "fintraxa-v1"]).2.2.2.2.1

/-- C10.  `invalidate` touches only the cache store: the in-flight
registry, the pending network calls and the id counter are exactly as
before, so a GET already in flight for an invalidated key is neither
deregistered nor cancelled — and when it later settles successfully it
writes its (pre-invalidation) payload back into the cache, making the
invalidated key reappear immediately. -/
theorem C10_invalidate_frame (s : SWState) (pre : String) :
    (invalidate s pre).inflight = s.inflight ∧
    (invalidate s pre).pending = s.pending ∧
    (invalidate s pre).nextId = s.nextId ∧
    (∀ (pid : Nat) (path key : String) (d now : Nat),
      mlookup s.pending pid =
        some (PendingKind.foreground true path key) →
      (settleStep (invalidate s pre) pid (FetchOutcome.success d) now).map
          (fun sr => mlookup sr.1.cache key) =
        some (some ⟨d, now⟩)) := by
  refine ⟨rfl, rfl, rfl, ?_⟩
  intro pid path key d now hpk
  have hpk' : mlookup (invalidate s pre).pending pid =
      some (PendingKind.foreground true path key) := hpk
  rw [settleStep_foreground (invalidate s pre) pid
    (FetchOutcome.success d) now true path key hpk',
    settleForeground_success]
  simp

/-- The state after: GET `/x` at `t = 0`, settlement with payload 7 at
`t = 0`, and a GET at `t = 700000` — past `STALE_TTL`, so a fresh
blocking foreground call (promise id 1) is in flight for `GET:/x`. -/
def c10State : SWState :=
  runOps initState
    [Op.getReq "/x" 0, Op.settles 0 (FetchOutcome.success 7) 0,
     Op.getReq "/x" 700000]

/-- Witness for C10: `/x` is fetched, cached, refetched after expiry,
then invalidated while the refetch is in flight; the refetch is still
pending and registered afterwards, and its settlement repopulates the
invalidated key with the payload it fetched. -/
theorem C10_invalidate_frame_witness :
    (invalidate c10State "/x").inflight = [("GET:/x", 1)] ∧
    (invalidate c10State "/x").cache = [] ∧
    (settleStep (invalidate c10State "/x") 1 (FetchOutcome.success 8)
        800000).map (fun sr => mlookup sr.1.cache "GET:/x") =
      some (some ⟨8, 800000⟩) := by
  refine ⟨by decide, by decide, ?_⟩
  exact (C10_invalidate_frame c10State "/x").2.2.2 1 "/x" "GET:/x" 8
    800000 (by decide)

end PKFinance
